import Mathlib

/-!
Verification of the district-name reconciliation engine and geometric
support layer of the TelanganaDataViz repository.

Python strings are embedded as lists of Unicode code points (`List Nat`);
the repository's data is ASCII, and all character-level operations
(`str.strip`, `str.replace`, `str.title`, `str.lower`) are modelled on
the ASCII fragment exactly as CPython implements them there.
-/

namespace TelanganaViz

/-- A Python string, as its list of code points. -/
abbrev PyStr := List Nat

/-- Encode a Lean string literal as a `PyStr` (used for concrete inputs). -/
def strLit (s : String) : PyStr := s.data.map Char.toNat

/-- Python `str.isspace` on the ASCII fragment: space, `\t\n\v\f\r`
(U+0009 to U+000D), and the separator controls U+001C to U+001F, which
CPython also treats as `str` whitespace. -/
def isPySpace (n : Nat) : Bool :=
  decide (n = 32 ∨ (9 ≤ n ∧ n ≤ 13) ∨ (28 ≤ n ∧ n ≤ 31))

/-- ASCII cased (alphabetic) characters, the ones `str.title` acts on. -/
def isAlphaB (n : Nat) : Bool := decide ((65 ≤ n ∧ n ≤ 90) ∨ (97 ≤ n ∧ n ≤ 122))

/-- ASCII `str.upper` on one character. -/
def pyUpperC (n : Nat) : Nat := if 97 ≤ n ∧ n ≤ 122 then n - 32 else n

/-- ASCII `str.lower` on one character. -/
def pyLowerC (n : Nat) : Nat := if 65 ≤ n ∧ n ≤ 90 then n + 32 else n

/-- Python `str.lower` on a whole string. -/
def pyLowerS (s : PyStr) : PyStr := s.map pyLowerC

/-- Python `str.strip()`: drop whitespace from both ends. -/
def pyStrip (s : PyStr) : PyStr :=
  ((s.dropWhile isPySpace).reverse.dropWhile isPySpace).reverse

/-- One character of `str.title`: a cased character is uppercased when the
previous character was not cased, lowercased otherwise. -/
def titleChar (prevAlpha : Bool) (c : Nat) : Nat :=
  if isAlphaB c then (if prevAlpha then pyLowerC c else pyUpperC c) else c

/-- Worker for `str.title`, carrying whether the previous character was cased. -/
def titleAux : Bool → PyStr → PyStr
  | _, [] => []
  | b, c :: cs => titleChar b c :: titleAux (isAlphaB c) cs

/-- Python `str.title()`. -/
def pyTitle (s : PyStr) : PyStr := titleAux false s

/-- Worker for `str.replace(pat, "")` with non-empty pattern `a :: p`:
scan left to right, removing each non-overlapping occurrence.  The fuel
argument (initially the string length) makes the recursion structural. -/
def removeAllF (a : Nat) (p : PyStr) : Nat → PyStr → PyStr
  | 0, s => s
  | _ + 1, [] => []
  | fuel + 1, c :: cs =>
      if (a :: p).isPrefixOf (c :: cs) then removeAllF a p fuel (cs.drop p.length)
      else c :: removeAllF a p fuel cs

/-- Python `s.replace(pat, "")`: remove every occurrence of `pat` in `s`. -/
def pyRemoveAll (pat : PyStr) (s : PyStr) : PyStr :=
  match pat with
  | [] => s
  | a :: p => removeAllF a p s.length s

/-- `True` iff `a :: p` occurs as a contiguous substring of the argument. -/
def hasOccurF (a : Nat) (p : PyStr) : PyStr → Bool
  | [] => false
  | c :: cs => (a :: p).isPrefixOf (c :: cs) || hasOccurF a p cs

/-- `True` iff `pat` occurs as a contiguous substring of `s` (empty pattern
always occurs). -/
def hasPat (pat s : PyStr) : Bool :=
  match pat with
  | [] => true
  | a :: p => hasOccurF a p s

/-- `DataProcessor.normalize_district_name` on a non-null input:
strip, remove every occurrence of `" District"`, then `" district"`,
then `"District "`, then `"district "`, and title-case the result. -/
def normalize_district_name (s : PyStr) : PyStr :=
  pyTitle (pyRemoveAll (strLit "district ")
    (pyRemoveAll (strLit "District ")
      (pyRemoveAll (strLit " district")
        (pyRemoveAll (strLit " District") (pyStrip s)))))

/-- `normalize_district_name` including the `pd.isna` branch: a missing
value normalizes to the empty string. -/
def normalizeOpt : Option PyStr → PyStr
  | none => []
  | some s => normalize_district_name s

/-- First canonical name whose normalization equals `key` — the source's
`map_districts[map_districts_normalized.index(key)]` idiom (also its
membership test `key in map_districts_normalized`). -/
def findExact (key : PyStr) : List PyStr → Option PyStr
  | [] => none
  | c :: cs => if normalize_district_name c = key then some c else findExact key cs

/-- Provenance of a resolved name, from the spec's `MatchResult`. -/
inductive MatchKind where
  | exact
  | fuzzy (score : Nat)
  | unmatched
deriving DecidableEq

/-- Modelled from the spec: the `MatchResult` score field.  The source never
materializes a score for the exact branch (the spec assigns it 100); the
fuzzy branch's score is the loop's `best_score`; `Unmatched` has none. -/
def matchScore : MatchKind → Option Nat
  | .exact => some 100
  | .fuzzy s => some s
  | .unmatched => none

/-- The source's fuzzy loop over the normalized canonical names:
`best_match`/`best_score` start at `None`/`0`, and a candidate replaces
them only when `score > best_score and score > 80`, where the score is
computed on the lowercased strings.  The similarity function itself
(`fuzz.ratio`, an external library) is a parameter. -/
def fuzzyLoop (score : PyStr → PyStr → Nat) (key : PyStr) :
    List PyStr → Option PyStr → Nat → Option PyStr × Nat
  | [], best, bestScore => (best, bestScore)
  | d :: ds, best, bestScore =>
      let s := score (pyLowerS key) (pyLowerS d)
      if bestScore < s ∧ 80 < s then fuzzyLoop score key ds (some d) s
      else fuzzyLoop score key ds best bestScore

/-- Resolution of one non-empty normalized key against the canonical list:
the exact pass (`key in map_districts_normalized`), then the fuzzy loop;
a fuzzy winner is mapped back to the first original-cased canonical name
with that normalization. -/
def matchOne (score : PyStr → PyStr → Nat) (key : PyStr) (canon : List PyStr) :
    Option PyStr × MatchKind :=
  match findExact key canon with
  | some c => (some c, .exact)
  | none =>
      match fuzzyLoop score key (canon.map normalize_district_name) none 0 with
      | (some best, s) => (findExact best canon, .fuzzy s)
      | (none, _) => (none, .unmatched)

/-- Association-list lookup, the model of the `district_mapping` dict. -/
def lookupA : List (PyStr × PyStr) → PyStr → Option PyStr
  | [], _ => none
  | (k, v) :: rest, key => if k = key then some v else lookupA rest key

/-- The source's loop over the unique normalized CSV keys: empty keys are
skipped, matched keys go into the mapping dict, the rest into
`unmatched_districts` — both in iteration order. -/
def buildMapping (score : PyStr → PyStr → Nat) (canon : List PyStr) :
    List PyStr → List (PyStr × PyStr) × List PyStr
  | [] => ([], [])
  | k :: ks =>
      let rest := buildMapping score canon ks
      if k = [] then rest
      else
        match (matchOne score k canon).1 with
        | some c => ((k, c) :: rest.1, rest.2)
        | none => (rest.1, k :: rest.2)

/-- Pandas `Series.unique`: distinct values in first-occurrence order. -/
def uniqueFirstAux (seen : List PyStr) : List PyStr → List PyStr
  | [] => []
  | k :: ks => if k ∈ seen then uniqueFirstAux seen ks
               else k :: uniqueFirstAux (k :: seen) ks

/-- Distinct values of a list in first-occurrence order. -/
def uniqueFirst (l : List PyStr) : List PyStr := uniqueFirstAux [] l

/-- The normalized key of one row, reading the district column at index `d`. -/
def rowKey (d : Nat) (r : List PyStr) : PyStr := normalize_district_name (r.getD d [])

/-- Everything observable about one `match_districts` call: the returned
dataframe (`none` models Python `None`), the `unmatched_districts` list
surfaced by `st.warning`, and whether the "No districts could be matched"
`st.error` fired. -/
structure MatchOutcome where
  colNotFound : Bool
  result : Option (List (List PyStr))
  unmatched : List PyStr
  noMatchesError : Bool
deriving DecidableEq

/-- `DataProcessor.match_districts`.  A dataframe is a header of column
names plus rows of cells; the district column is selected by name.  The
steps mirror the source: column check, normalize the canonical names and
the CSV column, build the mapping over the unique keys, `map` + `notna`
filter, the empty-result error path, and the final column rewrite. -/
def match_districts (score : PyStr → PyStr → Nat) (header : List String)
    (rows : List (List PyStr)) (col : String) (canon : List PyStr) : MatchOutcome :=
  if col ∈ header then
    let d := header.indexOf col
    let bm := buildMapping score canon (uniqueFirst (rows.map (rowKey d)))
    let survivors := rows.filter (fun r => (lookupA bm.1 (rowKey d r)).isSome)
    if survivors.isEmpty then
      { colNotFound := false, result := none, unmatched := bm.2, noMatchesError := true }
    else
      { colNotFound := false,
        result := some (survivors.map (fun r => r.set d ((lookupA bm.1 (rowKey d r)).getD []))),
        unmatched := bm.2, noMatchesError := false }
  else
    { colNotFound := true, result := none, unmatched := [], noMatchesError := false }

section Geometry

variable {G P : Type}

/-- `MapUtils.get_district_from_coordinates`: walk the features in loaded
order and return the first district whose geometry contains the point;
`none` models the final `return None`.  The containment predicate (the
shapely `polygon.contains(point)` call) is a parameter. -/
def get_district_from_coordinates (containsFn : G → P → Bool) :
    List (PyStr × G) → P → Option PyStr
  | [], _ => none
  | f :: fs, p =>
      if containsFn f.2 p then some f.1 else get_district_from_coordinates containsFn fs p

variable {R : Type} [LinearOrderedCommRing R]

/-- Cross product of `a - o` and `p - o`: the orientation of `p` relative
to the directed segment `o → a`. -/
def cross (o a p : R × R) : R :=
  (a.1 - o.1) * (p.2 - o.2) - (a.2 - o.2) * (p.1 - o.1)

/-- `p` lies on the closed segment from `a` to `b`. -/
def onSeg (a b p : R × R) : Bool :=
  decide (cross a b p = 0 ∧ min a.1 b.1 ≤ p.1 ∧ p.1 ≤ max a.1 b.1 ∧
    min a.2 b.2 ≤ p.2 ∧ p.2 ≤ max a.2 b.2)

/-- The edges of a polygon ring (consecutive vertex pairs; GeoJSON rings
are explicitly closed, so the last vertex repeats the first). -/
def edges (ring : List (R × R)) : List ((R × R) × (R × R)) := ring.zip ring.tail

/-- `p` lies on the boundary of the ring. -/
def onBoundary (ring : List (R × R)) (p : R × R) : Bool :=
  (edges ring).any (fun e => onSeg e.1 e.2 p)

/-- One edge's contribution to the crossing count of the rightward
horizontal ray from `p`: the edge straddles the ray's line and `p` is
strictly on the inner side (standard even-odd ray casting). -/
def raysCross (a b p : R × R) : Bool :=
  if a.2 ≤ p.2 ∧ p.2 < b.2 then decide (0 < cross a b p)
  else if b.2 ≤ p.2 ∧ p.2 < a.2 then decide (cross a b p < 0)
  else false

/-- Number of edges of the ring crossed by the rightward ray from `p`. -/
def crossingCount (ring : List (R × R)) (p : R × R) : Nat :=
  ((edges ring).filter (fun e => raysCross e.1 e.2 p)).length

/-- Model of the shapely `polygon.contains(point)` call in
`get_district_from_coordinates`, per shapely's documented semantics: true
iff the point lies in the polygon's interior, so boundary points are never
contained; interior membership by even-odd ray casting on the ring. -/
def shapelyContains (ring : List (R × R)) (p : R × R) : Bool :=
  if onBoundary ring p then false else crossingCount ring p % 2 == 1

end Geometry

section Distance

/-- `math.radians`. -/
noncomputable def radians (x : ℝ) : ℝ := x * Real.pi / 180

/-- `MapUtils.haversine_distance`: great-circle distance in kilometres
(floating point idealized as real arithmetic). -/
noncomputable def haversine_distance (lat1 lon1 lat2 lon2 : ℝ) : ℝ :=
  let dlat := radians lat2 - radians lat1
  let dlon := radians lon2 - radians lon1
  let a := Real.sin (dlat / 2) ^ 2 +
    Real.cos (radians lat1) * Real.cos (radians lat2) * Real.sin (dlon / 2) ^ 2
  let c := 2 * Real.arcsin (Real.sqrt a)
  c * 6371

variable {G : Type}

/-- `MapUtils.get_district_centroid`: first feature with the requested
name, then the centroid of its geometry as `(lat, lng)`.  The centroid
computation (shapely `polygon.centroid`) is a parameter. -/
def get_district_centroid (centroidOf : G → ℝ × ℝ) :
    List (PyStr × G) → PyStr → Option (ℝ × ℝ)
  | [], _ => none
  | f :: fs, name =>
      if f.1 = name then some (centroidOf f.2) else get_district_centroid centroidOf fs name

/-- `MapUtils.calculate_distance_between_districts`: haversine distance of
the two centroids, `None` when either district name is unknown. -/
noncomputable def calculate_distance_between_districts (centroidOf : G → ℝ × ℝ)
    (features : List (PyStr × G)) (d1 d2 : PyStr) : Option ℝ :=
  match get_district_centroid centroidOf features d1,
        get_district_centroid centroidOf features d2 with
  | some c1, some c2 => some (haversine_distance c1.1 c1.2 c2.1 c2.2)
  | _, _ => none

end Distance

/-! ### Helper lemmas: `str.replace` removal -/

theorem removeAllF_of_no_occur (a : Nat) (p : PyStr) :
    ∀ (fuel : Nat) (s : PyStr), hasOccurF a p s = false → removeAllF a p fuel s = s := by
  intro fuel
  induction fuel with
  | zero => intro s _; rfl
  | succ n ih =>
      intro s h
      cases s with
      | nil => rfl
      | cons c cs =>
          rw [hasOccurF, Bool.or_eq_false_iff] at h
          rw [removeAllF, if_neg (by simp [h.1]), ih cs h.2]

theorem pyRemoveAll_of_no_pat {pat s : PyStr} (h : hasPat pat s = false) :
    pyRemoveAll pat s = s := by
  cases pat with
  | nil => rfl
  | cons a p => exact removeAllF_of_no_occur a p s.length s h

theorem hasOccurF_of_ne (a : Nat) (p : PyStr) :
    ∀ s : PyStr, (∀ c ∈ s, c ≠ a) → hasOccurF a p s = false := by
  intro s
  induction s with
  | nil => intro _; rfl
  | cons c cs ih =>
      intro h
      rw [hasOccurF, Bool.or_eq_false_iff]
      constructor
      · simp only [List.isPrefixOf, Bool.and_eq_false_iff, beq_eq_false_iff_ne, ne_eq]
        exact Or.inl (fun hac => (h c (List.mem_cons_self c cs)) hac.symm)
      · exact ih (fun d hd => h d (List.mem_cons_of_mem c hd))

/-! ### Helper lemmas: `str.title` -/

theorem isAlphaB_pyUpperC (c : Nat) : isAlphaB (pyUpperC c) = isAlphaB c := by
  unfold isAlphaB pyUpperC
  split
  · rw [decide_eq_decide]; omega
  · rfl

theorem isAlphaB_pyLowerC (c : Nat) : isAlphaB (pyLowerC c) = isAlphaB c := by
  unfold isAlphaB pyLowerC
  split
  · rw [decide_eq_decide]; omega
  · rfl

theorem pyUpperC_pyUpperC (c : Nat) : pyUpperC (pyUpperC c) = pyUpperC c := by
  unfold pyUpperC
  split
  · split <;> omega
  · rfl

theorem pyLowerC_pyLowerC (c : Nat) : pyLowerC (pyLowerC c) = pyLowerC c := by
  unfold pyLowerC
  split
  · split <;> omega
  · rfl

theorem isAlphaB_titleChar (b : Bool) (c : Nat) : isAlphaB (titleChar b c) = isAlphaB c := by
  unfold titleChar
  split
  · cases b <;> simp [isAlphaB_pyUpperC, isAlphaB_pyLowerC]
  · rfl

theorem titleChar_titleChar (b : Bool) (c : Nat) :
    titleChar b (titleChar b c) = titleChar b c := by
  by_cases h : isAlphaB c = true <;> cases b <;>
    simp [titleChar, h, isAlphaB_pyUpperC, isAlphaB_pyLowerC,
      pyUpperC_pyUpperC, pyLowerC_pyLowerC]

theorem titleAux_idem : ∀ (l : PyStr) (b : Bool), titleAux b (titleAux b l) = titleAux b l := by
  intro l
  induction l with
  | nil => intro b; rfl
  | cons c cs ih =>
      intro b
      rw [titleAux, titleAux, titleChar_titleChar, isAlphaB_titleChar, ih (isAlphaB c)]

theorem pyTitle_idem (l : PyStr) : pyTitle (pyTitle l) = pyTitle l :=
  titleAux_idem l false

/-! ### Claim C1: idempotence of the name normalizer -/

/-- C1 (counterexample): the normalizer is not idempotent.  On
`"DISTRICT X"` one application yields `"District X"` (no case-sensitive
pattern matches, and title-casing recapitalizes the word), but a second
application strips the now-leading `"District "` and yields `"X"`. -/
theorem c1_normalize_not_idempotent :
    normalize_district_name (normalize_district_name (strLit "DISTRICT X")) ≠
      normalize_district_name (strLit "DISTRICT X") := by decide

/-- C1 (amended): the normalizer is idempotent on every input whose
normalization is already a fixed point of the stripping and removal
passes — i.e. whenever `normalize(s)` has no surrounding whitespace and
contains none of the four removal substrings, then
`normalize(normalize(s)) = normalize(s)`.  (Unconditional idempotence is
false: title-casing can fabricate a removable occurrence, see the
counterexample.) -/
theorem c1_normalize_idempotent_of_fixed (s : PyStr)
    (h1 : pyStrip (normalize_district_name s) = normalize_district_name s)
    (h2 : hasPat (strLit " District") (normalize_district_name s) = false)
    (h3 : hasPat (strLit " district") (normalize_district_name s) = false)
    (h4 : hasPat (strLit "District ") (normalize_district_name s) = false)
    (h5 : hasPat (strLit "district ") (normalize_district_name s) = false) :
    normalize_district_name (normalize_district_name s) = normalize_district_name s := by
  have hdef : normalize_district_name (normalize_district_name s) =
      pyTitle (pyRemoveAll (strLit "district ")
        (pyRemoveAll (strLit "District ")
          (pyRemoveAll (strLit " district")
            (pyRemoveAll (strLit " District")
              (pyStrip (normalize_district_name s)))))) := rfl
  rw [hdef, h1, pyRemoveAll_of_no_pat h2, pyRemoveAll_of_no_pat h3,
    pyRemoveAll_of_no_pat h4, pyRemoveAll_of_no_pat h5]
  exact pyTitle_idem _

/-- C1 witness: the hypotheses of the amended idempotence theorem hold at
`"Hyderabad"`, and the theorem applies there. -/
theorem c1_witness :
    (pyStrip (normalize_district_name (strLit "Hyderabad")) =
        normalize_district_name (strLit "Hyderabad")) ∧
    normalize_district_name (normalize_district_name (strLit "Hyderabad")) =
      normalize_district_name (strLit "Hyderabad") :=
  ⟨by decide, c1_normalize_idempotent_of_fixed (strLit "Hyderabad")
    (by decide) (by decide) (by decide) (by decide) (by decide)⟩

/-! ### Claim C2: where the removal substrings are removed -/

theorem isPrefixOf_false_of_head_ne {a c : Nat} (p cs : PyStr) (h : a ≠ c) :
    (a :: p).isPrefixOf (c :: cs) = false := by
  simp only [List.isPrefixOf, Bool.and_eq_false_iff]
  exact Or.inl (beq_eq_false_iff_ne.2 h)

/-- Scanning `str.replace` removal through a block `x` in which no
occurrence of the pattern can start leaves `x` untouched. -/
theorem removeAllF_append (a : Nat) (p : PyStr) :
    ∀ (x t : PyStr) (fuel : Nat),
      (∀ s, s ≠ [] → s <:+ x → (a :: p).isPrefixOf (s ++ t) = false) →
      removeAllF a p (x.length + fuel) (x ++ t) = x ++ removeAllF a p fuel t := by
  intro x
  induction x with
  | nil => intro t fuel _; simp
  | cons c x' ih =>
      intro t fuel h
      have hlen : (c :: x').length + fuel = (x'.length + fuel) + 1 := by
        simp only [List.length_cons]; omega
      rw [hlen, List.cons_append]
      have hc : (a :: p).isPrefixOf (c :: (x' ++ t)) = false := by
        have := h (c :: x') (by simp) (List.suffix_refl _)
        simpa using this
      simp only [removeAllF, hc, Bool.false_eq_true, if_false]
      rw [ih t fuel (fun s hs hsuf => h s hs (hsuf.trans (List.suffix_cons c x')))]
      rfl

/-- Lowercase ASCII letter other than `d` (code 100); the character class
used to exhibit mid-string removal without interference from the other
replacement patterns. -/
def lowNoD (c : Nat) : Prop := 97 ≤ c ∧ c ≤ 122 ∧ c ≠ 100

instance (c : Nat) : Decidable (lowNoD c) := by unfold lowNoD; infer_instance

theorem skip_of_low {x : PyStr} (hx : ∀ c ∈ x, lowNoD c) (q t : PyStr) :
    ∀ s, s ≠ [] → s <:+ x → (32 :: q).isPrefixOf (s ++ t) = false := by
  intro s hs hsuf
  obtain ⟨c, s', rfl⟩ : ∃ c s', s = c :: s' := by
    cases s with
    | nil => exact absurd rfl hs
    | cons c s' => exact ⟨c, s', rfl⟩
  have hc : c ∈ x := hsuf.subset (List.mem_cons_self c s')
  have := (hx c hc).1
  rw [List.cons_append]
  exact isPrefixOf_false_of_head_ne _ _ (by omega)

/-- The first replacement pass removes the mid-string `" District"`. -/
theorem passA (x y : PyStr) (hx : ∀ c ∈ x, lowNoD c) (hy : ∀ c ∈ y, lowNoD c) :
    pyRemoveAll (strLit " District") (x ++ strLit " District " ++ y) = x ++ 32 :: y := by
  have epat : strLit " District" = 32 :: strLit "District" := by decide
  have emid : x ++ strLit " District " ++ y = x ++ 32 :: (strLit "District" ++ 32 :: y) := by
    have e : strLit " District " = 32 :: (strLit "District" ++ [32]) := by decide
    rw [e]; simp
  rw [epat, emid]
  show removeAllF 32 (strLit "District")
      (x ++ 32 :: (strLit "District" ++ 32 :: y)).length
      (x ++ 32 :: (strLit "District" ++ 32 :: y)) = x ++ 32 :: y
  have hq : (strLit "District").length = 8 := by decide
  have hlen : (x ++ 32 :: (strLit "District" ++ 32 :: y)).length = x.length + (10 + y.length) := by
    simp [List.length_append, hq]; omega
  rw [hlen, removeAllF_append 32 (strLit "District") x _ _ (skip_of_low hx _ _)]
  congr 1
  have h1 : (10 : Nat) + y.length = (9 + y.length) + 1 := by omega
  rw [h1]
  have hpre : (32 :: strLit "District").isPrefixOf
      (32 :: (strLit "District" ++ 32 :: y)) = true :=
    List.isPrefixOf_iff_prefix.2 (List.prefix_append (32 :: strLit "District") (32 :: y))
  simp only [removeAllF, hpre, if_true]
  rw [List.drop_left]
  have h2 : (9 : Nat) + y.length = (8 + y.length) + 1 := by omega
  rw [h2]
  have hpre2 : (32 :: strLit "District").isPrefixOf (32 :: y) = false := by
    cases y with
    | nil => decide
    | cons d y' =>
        have hd := (hy d (List.mem_cons_self d y')).1
        rw [show strLit "District" = 68 :: strLit "istrict" from by decide]
        simp only [List.isPrefixOf, beq_self_eq_true, Bool.true_and]
        rw [Bool.and_eq_false_iff]
        exact Or.inl (beq_eq_false_iff_ne.2 (by omega))
  simp only [removeAllF, hpre2, Bool.false_eq_true, if_false]
  congr 1
  exact removeAllF_of_no_occur _ _ _ y
    (hasOccurF_of_ne _ _ y (fun c hc => by have := (hy c hc).1; omega))

/-- The second replacement pass (`" district"`) leaves `x ++ " " ++ y`
untouched when `y` cannot begin the word. -/
theorem passB (x y : PyStr) (hx : ∀ c ∈ x, lowNoD c) (hy : ∀ c ∈ y, lowNoD c) :
    pyRemoveAll (strLit " district") (x ++ 32 :: y) = x ++ 32 :: y := by
  have epat : strLit " district" = 32 :: strLit "district" := by decide
  rw [epat]
  show removeAllF 32 (strLit "district") (x ++ 32 :: y).length (x ++ 32 :: y) = x ++ 32 :: y
  have hlen : (x ++ 32 :: y).length = x.length + (1 + y.length) := by simp; omega
  rw [hlen, removeAllF_append 32 (strLit "district") x _ _ (skip_of_low hx _ _)]
  congr 1
  have h1 : (1 : Nat) + y.length = y.length + 1 := by omega
  rw [h1]
  have hpre : (32 :: strLit "district").isPrefixOf (32 :: y) = false := by
    cases y with
    | nil => decide
    | cons d y' =>
        have hd := (hy d (List.mem_cons_self d y')).2.2
        rw [show strLit "district" = 100 :: strLit "istrict" from by decide]
        simp only [List.isPrefixOf, beq_self_eq_true, Bool.true_and]
        rw [Bool.and_eq_false_iff]
        exact Or.inl (beq_eq_false_iff_ne.2 (fun h => hd h.symm))
  simp only [removeAllF, hpre, Bool.false_eq_true, if_false]
  congr 1
  exact removeAllF_of_no_occur _ _ _ y
    (hasOccurF_of_ne _ _ y (fun c hc => by have := (hy c hc).1; omega))

theorem mem_mid_cases {x y : PyStr} {c : Nat} (hc : c ∈ x ++ 32 :: y) :
    c ∈ x ∨ c = 32 ∨ c ∈ y := by
  simpa [List.mem_append, List.mem_cons] using hc

/-- The third replacement pass (`"District "`): no capital `D` anywhere. -/
theorem passC (x y : PyStr) (hx : ∀ c ∈ x, lowNoD c) (hy : ∀ c ∈ y, lowNoD c) :
    pyRemoveAll (strLit "District ") (x ++ 32 :: y) = x ++ 32 :: y := by
  apply pyRemoveAll_of_no_pat
  have e : strLit "District " = 68 :: strLit "istrict " := by decide
  rw [e]
  show hasOccurF 68 (strLit "istrict ") (x ++ 32 :: y) = false
  apply hasOccurF_of_ne
  intro c hc
  rcases mem_mid_cases hc with h | h | h
  · have := (hx c h).1; omega
  · omega
  · have := (hy c h).1; omega

/-- The fourth replacement pass (`"district "`): no `d` anywhere. -/
theorem passD (x y : PyStr) (hx : ∀ c ∈ x, lowNoD c) (hy : ∀ c ∈ y, lowNoD c) :
    pyRemoveAll (strLit "district ") (x ++ 32 :: y) = x ++ 32 :: y := by
  apply pyRemoveAll_of_no_pat
  have e : strLit "district " = 100 :: strLit "istrict " := by decide
  rw [e]
  show hasOccurF 100 (strLit "istrict ") (x ++ 32 :: y) = false
  apply hasOccurF_of_ne
  intro c hc
  rcases mem_mid_cases hc with h | h | h
  · exact (hx c h).2.2
  · omega
  · exact (hy c h).2.2

theorem dropWhile_eq_self_of (p : Nat → Bool) (l : PyStr)
    (h : ∀ c, l.head? = some c → p c = false) : l.dropWhile p = l := by
  cases l with
  | nil => rfl
  | cons c cs => rw [List.dropWhile_cons, h c rfl]; simp

/-- `str.strip` is the identity when neither end is whitespace. -/
theorem pyStrip_eq_self (l : PyStr)
    (h1 : ∀ c, l.head? = some c → isPySpace c = false)
    (h2 : ∀ c, l.getLast? = some c → isPySpace c = false) : pyStrip l = l := by
  rw [pyStrip, dropWhile_eq_self_of _ _ h1,
    dropWhile_eq_self_of _ _ (fun c hc => h2 c (by rwa [List.head?_reverse] at hc)),
    List.reverse_reverse]

/-- Drop `suf` from the end of `s` when it is a suffix there. -/
def dropSuffixIf (suf s : PyStr) : PyStr :=
  if suf.isSuffixOf s then s.take (s.length - suf.length) else s

/-- Drop `pre` from the start of `s` when it is a prefix there. -/
def dropPrefixIf (pre s : PyStr) : PyStr :=
  if pre.isPrefixOf s then s.drop pre.length else s

/-- The transform claim C2 describes (a reference model built from the
claim's own words, for comparison with the source's
`normalize_district_name`): trim, remove `" District"`/`" district"`
only as a trailing suffix and `"District "`/`"district "` only as a
leading prefix, title-case, and leave occurrences elsewhere in place. -/
def claimed_normalize (s : PyStr) : PyStr :=
  pyTitle (dropPrefixIf (strLit "district ")
    (dropPrefixIf (strLit "District ")
      (dropSuffixIf (strLit " district")
        (dropSuffixIf (strLit " District") (pyStrip s)))))

/-- C2 (counterexample): `str.replace` removes every occurrence, not just
trailing/leading ones.  On `"Greater District City"` the source removes the
mid-string `" District"` and returns `"Greater City"`, while the claim's
transform would leave it in place. -/
theorem c2_removal_not_edge_only :
    normalize_district_name (strLit "Greater District City") = strLit "Greater City" ∧
    claimed_normalize (strLit "Greater District City") = strLit "Greater District City" ∧
    normalize_district_name (strLit "Greater District City") ≠
      claimed_normalize (strLit "Greater District City") :=
  ⟨by decide, by decide, by decide⟩

/-- C2 (amended): removal is global.  For any non-empty words `x`, `y` of
lowercase letters other than `d` (so no other replacement pattern can
interfere), a mid-string `" District "` is removed:
`normalize(x ++ " District " ++ y) = title(x ++ " " ++ y)`. -/
theorem c2_removal_is_global (x y : PyStr) (hx0 : x ≠ []) (hy0 : y ≠ [])
    (hx : ∀ c ∈ x, lowNoD c) (hy : ∀ c ∈ y, lowNoD c) :
    normalize_district_name (x ++ strLit " District " ++ y) = pyTitle (x ++ 32 :: y) := by
  have hstrip : pyStrip (x ++ strLit " District " ++ y) = x ++ strLit " District " ++ y := by
    apply pyStrip_eq_self
    · intro c hc
      obtain ⟨c0, x', rfl⟩ : ∃ c0 x', x = c0 :: x' := by
        cases x with
        | nil => exact absurd rfl hx0
        | cons c0 x' => exact ⟨c0, x', rfl⟩
      rw [List.cons_append, List.cons_append, List.head?_cons] at hc
      have hc0 := (hx c0 (List.mem_cons_self c0 x')).1
      cases hc
      simp only [isPySpace, decide_eq_false_iff_not]
      omega
    · intro c hc
      rw [List.getLast?_append_of_ne_nil _ hy0, List.getLast?_eq_getLast y hy0] at hc
      cases hc
      have := (hy _ (List.getLast_mem hy0)).1
      simp only [isPySpace, decide_eq_false_iff_not]
      omega
  unfold normalize_district_name
  rw [hstrip, passA x y hx hy, passB x y hx hy, passC x y hx hy, passD x y hx hy]

/-- C2 witness: the amended removal theorem applies at
`x = "greater"`, `y = "city"`. -/
theorem c2_witness :
    (strLit "greater" ≠ ([] : PyStr)) ∧ (strLit "city" ≠ ([] : PyStr)) ∧
    (∀ c ∈ strLit "greater", lowNoD c) ∧ (∀ c ∈ strLit "city", lowNoD c) ∧
    normalize_district_name (strLit "greater" ++ strLit " District " ++ strLit "city") =
      pyTitle (strLit "greater" ++ 32 :: strLit "city") :=
  ⟨by decide, by decide, by decide, by decide,
    c2_removal_is_global _ _ (by decide) (by decide) (by decide) (by decide)⟩

/-! ### Claims C3, C4, C5: the matcher -/

/-- If no candidate satisfies the update condition
(`score > best_score and score > 80`), the fuzzy loop returns its
accumulator unchanged. -/
theorem fuzzyLoop_stall (score : PyStr → PyStr → Nat) (key : PyStr) :
    ∀ (l : List PyStr) (b : Option PyStr) (bs : Nat),
      (∀ d ∈ l, ¬(bs < score (pyLowerS key) (pyLowerS d) ∧
        80 < score (pyLowerS key) (pyLowerS d))) →
      fuzzyLoop score key l b bs = (b, bs) := by
  intro l
  induction l with
  | nil => intro b bs _; rfl
  | cons d ds ih =>
      intro b bs h
      simp only [fuzzyLoop, if_neg (h d (List.mem_cons_self d ds))]
      exact ih b bs (fun e he => h e (List.mem_cons_of_mem d he))

/-- Processing candidates that all score strictly below `S` can change the
accumulator, but keeps the best score strictly below `S`. -/
theorem fuzzyLoop_below (score : PyStr → PyStr → Nat) (key : PyStr) (S : Nat) :
    ∀ (l r : List PyStr) (b : Option PyStr) (bs : Nat), bs < S →
      (∀ d ∈ l, score (pyLowerS key) (pyLowerS d) < S) →
      ∃ b' bs', fuzzyLoop score key (l ++ r) b bs = fuzzyLoop score key r b' bs' ∧ bs' < S := by
  intro l
  induction l with
  | nil => intro r b bs hbs _; exact ⟨b, bs, rfl, hbs⟩
  | cons d ds ih =>
      intro r b bs hbs h
      rw [List.cons_append]
      simp only [fuzzyLoop]
      split
      · exact ih r (some d) _ (h d (List.mem_cons_self d ds))
          (fun e he => h e (List.mem_cons_of_mem d he))
      · exact ih r b bs hbs (fun e he => h e (List.mem_cons_of_mem d he))

/-- Once the loop's accumulator holds a candidate it never reverts to none. -/
theorem fuzzyLoop_some_ne_none (score : PyStr → PyStr → Nat) (key : PyStr) :
    ∀ (l : List PyStr) (x : PyStr) (bs : Nat),
      (fuzzyLoop score key l (some x) bs).1 ≠ none := by
  intro l
  induction l with
  | nil => intro x bs; simp [fuzzyLoop]
  | cons d ds ih =>
      intro x bs
      simp only [fuzzyLoop]
      split
      · exact ih d _
      · exact ih x bs

/-- A candidate above the threshold and above the current best guarantees
the loop ends with some match. -/
theorem fuzzyLoop_hit (score : PyStr → PyStr → Nat) (key : PyStr) :
    ∀ (l : List PyStr) (bs : Nat),
      (∃ d ∈ l, 80 < score (pyLowerS key) (pyLowerS d) ∧
        bs < score (pyLowerS key) (pyLowerS d)) →
      (fuzzyLoop score key l none bs).1 ≠ none := by
  intro l
  induction l with
  | nil => rintro bs ⟨d, hd, _⟩; exact absurd hd (List.not_mem_nil d)
  | cons d0 ds ih =>
      rintro bs ⟨d, hd, hgt, hbs⟩
      simp only [fuzzyLoop]
      split
      · exact fuzzyLoop_some_ne_none score key ds d0 _
      · rename_i hcond
        rcases List.mem_cons.1 hd with rfl | hm
        · exact absurd ⟨hbs, hgt⟩ hcond
        · exact ih bs ⟨d, hm, hgt, hbs⟩

/-- A match produced by the loop is either the incoming accumulator or one
of the processed candidates. -/
theorem fuzzyLoop_mem (score : PyStr → PyStr → Nat) (key : PyStr) :
    ∀ (l : List PyStr) (b : Option PyStr) (bs : Nat) (x : PyStr) (s : Nat),
      fuzzyLoop score key l b bs = (some x, s) → b = some x ∨ x ∈ l := by
  intro l
  induction l with
  | nil =>
      intro b bs x s h
      exact Or.inl (congrArg Prod.fst h)
  | cons d ds ih =>
      intro b bs x s h
      simp only [fuzzyLoop] at h
      split at h
      · rcases ih _ _ _ _ h with h' | h'
        · exact Or.inr (by rw [← Option.some_inj.1 h']; exact List.mem_cons_self d ds)
        · exact Or.inr (List.mem_cons_of_mem d h')
      · rcases ih _ _ _ _ h with h' | h'
        · exact Or.inl h'
        · exact Or.inr (List.mem_cons_of_mem d h')

/-- `findExact` finds the first canonical name matching the key, splitting
the canonical list around it. -/
theorem findExact_split (key : PyStr) (canon : List PyStr)
    (h : ∃ c ∈ canon, normalize_district_name c = key) :
    ∃ l1 c l2, canon = l1 ++ c :: l2 ∧ normalize_district_name c = key ∧
      (∀ d ∈ l1, normalize_district_name d ≠ key) ∧ findExact key canon = some c := by
  induction canon with
  | nil => obtain ⟨c, hc, _⟩ := h; exact absurd hc (List.not_mem_nil c)
  | cons c0 rest ih =>
      by_cases hc0 : normalize_district_name c0 = key
      · exact ⟨[], c0, rest, rfl, hc0, by simp, by simp [findExact, if_pos hc0]⟩
      · have h' : ∃ c ∈ rest, normalize_district_name c = key := by
          obtain ⟨c, hc, hnc⟩ := h
          rcases List.mem_cons.1 hc with rfl | hm
          · exact absurd hnc hc0
          · exact ⟨c, hm, hnc⟩
        obtain ⟨l1, c, l2, hsplit, hnc, hl1, hfind⟩ := ih h'
        refine ⟨c0 :: l1, c, l2, by rw [hsplit]; rfl, hnc, ?_, ?_⟩
        · intro d hd
          rcases List.mem_cons.1 hd with rfl | hm2
          · exact hc0
          · exact hl1 d hm2
        · rw [findExact, if_neg hc0, hfind]

/-- When some canonical name normalizes to the key, `findExact` succeeds. -/
theorem findExact_isSome_of (key : PyStr) (canon : List PyStr)
    (h : ∃ c ∈ canon, normalize_district_name c = key) :
    ∃ c, findExact key canon = some c := by
  obtain ⟨_, c, _, _, _, _, hfind⟩ := findExact_split key canon h
  exact ⟨c, hfind⟩

/-- C4: if a raw key's normalization equals some canonical key, the matcher
resolves it, for every score function, to the first canonical name (in
loaded order, with its original casing) whose normalization equals the key,
with kind `Exact` and score 100; the fuzzy scores never enter. -/
theorem c4_exact_match_priority (key : PyStr) (canon : List PyStr)
    (h : ∃ c ∈ canon, normalize_district_name c = key) :
    ∃ l1 c l2, canon = l1 ++ c :: l2 ∧ normalize_district_name c = key ∧
      (∀ d ∈ l1, normalize_district_name d ≠ key) ∧
      (∀ score, matchOne score key canon = (some c, MatchKind.exact)) ∧
      (∀ score, matchScore (matchOne score key canon).2 = some 100) := by
  obtain ⟨l1, c, l2, hsplit, hnc, hl1, hfind⟩ := findExact_split key canon h
  refine ⟨l1, c, l2, hsplit, hnc, hl1, ?_, ?_⟩
  · intro score
    simp only [matchOne, hfind]
  · intro score
    simp only [matchOne, hfind, matchScore]

/-- C4 witness: `"Hyderabad"` exact-matches against
`["Warangal", "Hyderabad"]` and the theorem applies there. -/
theorem c4_witness :
    (∃ c ∈ [strLit "Warangal", strLit "Hyderabad"],
        normalize_district_name c = strLit "Hyderabad") ∧
    (∃ l1 c l2, [strLit "Warangal", strLit "Hyderabad"] = l1 ++ c :: l2 ∧
      normalize_district_name c = strLit "Hyderabad" ∧
      (∀ d ∈ l1, normalize_district_name d ≠ strLit "Hyderabad") ∧
      (∀ score, matchOne score (strLit "Hyderabad")
        [strLit "Warangal", strLit "Hyderabad"] = (some c, MatchKind.exact)) ∧
      (∀ score, matchScore (matchOne score (strLit "Hyderabad")
        [strLit "Warangal", strLit "Hyderabad"]).2 = some 100)) :=
  ⟨⟨strLit "Hyderabad", by decide, by decide⟩,
    c4_exact_match_priority _ _ ⟨strLit "Hyderabad", by decide, by decide⟩⟩

/-- C3: with no exact match, acceptance is strictly greater-than 80.  If
every canonical key scores at most 80 (in particular when the maximum is
exactly 80) the key is `Unmatched`; if some canonical key scores above 80
(in particular 81) the key gets a fuzzy match. -/
theorem c3_fuzzy_threshold_strict (score : PyStr → PyStr → Nat) (key : PyStr)
    (canon : List PyStr) (hne : findExact key canon = none) :
    ((∀ d ∈ canon.map normalize_district_name,
        score (pyLowerS key) (pyLowerS d) ≤ 80) →
      matchOne score key canon = (none, MatchKind.unmatched)) ∧
    ((∃ d ∈ canon.map normalize_district_name,
        80 < score (pyLowerS key) (pyLowerS d)) →
      ∃ c s, matchOne score key canon = (some c, MatchKind.fuzzy s)) := by
  constructor
  · intro h
    have hloop : fuzzyLoop score key (canon.map normalize_district_name) none 0 = (none, 0) :=
      fuzzyLoop_stall score key _ none 0 (fun d hd => by have := h d hd; omega)
    simp only [matchOne, hne, hloop]
  · rintro ⟨d, hd, hgt⟩
    rcases hres : fuzzyLoop score key (canon.map normalize_district_name) none 0 with ⟨b, s⟩
    cases b with
    | none =>
        exact absurd (congrArg Prod.fst hres)
          (fuzzyLoop_hit score key _ 0 ⟨d, hd, hgt, by omega⟩)
    | some best =>
        have hb : best ∈ canon.map normalize_district_name := by
          rcases fuzzyLoop_mem score key _ _ _ _ _ hres with h' | h'
          · exact absurd h' (by simp)
          · exact h'
        obtain ⟨orig, horig, hnorm⟩ := List.mem_map.1 hb
        obtain ⟨c, hc⟩ := findExact_isSome_of best canon ⟨orig, horig, hnorm⟩
        exact ⟨c, s, by simp only [matchOne, hne, hres, hc]⟩

/-- C3 witness: with canonical list `["Hyderabad"]` and key `"Atlantis"`,
a constant score of 80 yields `Unmatched` and a constant score of 81
yields a fuzzy match. -/
theorem c3_witness :
    (findExact (strLit "Atlantis") [strLit "Hyderabad"] = none) ∧
    matchOne (fun _ _ => 80) (strLit "Atlantis") [strLit "Hyderabad"] =
      (none, MatchKind.unmatched) ∧
    (∃ c s, matchOne (fun _ _ => 81) (strLit "Atlantis") [strLit "Hyderabad"] =
      (some c, MatchKind.fuzzy s)) :=
  ⟨by decide,
    (c3_fuzzy_threshold_strict (fun _ _ => 80) _ _ (by decide)).1 (by decide),
    (c3_fuzzy_threshold_strict (fun _ _ => 81) _ _ (by decide)).2
      ⟨normalize_district_name (strLit "Hyderabad"), by decide, by decide⟩⟩

/-- C5: ties at the maximum fuzzy score go to the first canonical name in
loaded order (earlier candidates score strictly lower, later ones at most
the winner's score), and matching is deterministic: re-running
`match_districts` on the same inputs gives the same outcome. -/
theorem c5_tie_break_and_determinism (score : PyStr → PyStr → Nat) (key : PyStr)
    (l1 : List PyStr) (c : PyStr) (l2 : List PyStr)
    (hc : 80 < score (pyLowerS key) (pyLowerS c))
    (h1 : ∀ d ∈ l1, score (pyLowerS key) (pyLowerS d) < score (pyLowerS key) (pyLowerS c))
    (h2 : ∀ d ∈ l2, score (pyLowerS key) (pyLowerS d) ≤ score (pyLowerS key) (pyLowerS c)) :
    fuzzyLoop score key (l1 ++ c :: l2) none 0 =
      (some c, score (pyLowerS key) (pyLowerS c)) ∧
    ∀ (header : List String) (rows : List (List PyStr)) (col : String) (canon : List PyStr),
      match_districts score header rows col canon =
        match_districts score header rows col canon := by
  constructor
  · obtain ⟨b', bs', heq, hlt⟩ := fuzzyLoop_below score key
      (score (pyLowerS key) (pyLowerS c)) l1 (c :: l2) none 0 (by omega) h1
    rw [heq]
    simp only [fuzzyLoop, if_pos (And.intro hlt hc)]
    exact fuzzyLoop_stall score key l2 (some c) _ (fun d hd => by have := h2 d hd; omega)
  · intro _ _ _ _
    rfl

/-- C5 witness: with score = 79 + length, candidates `["ab", "abc", "abz"]`
give scores 81, 82, 82 — a tie at the maximum between the second and third;
the loop picks the second (first maximal) candidate. -/
theorem c5_witness :
    (80 < (fun (_ d : PyStr) => 79 + d.length) (pyLowerS (strLit "k"))
        (pyLowerS (strLit "abc"))) ∧
    fuzzyLoop (fun _ d => 79 + d.length) (strLit "k")
        ([strLit "ab"] ++ strLit "abc" :: [strLit "abz"]) none 0 =
      (some (strLit "abc"),
        (fun (_ d : PyStr) => 79 + d.length) (pyLowerS (strLit "k"))
          (pyLowerS (strLit "abc"))) :=
  ⟨by decide,
    (c5_tie_break_and_determinism (fun _ d => 79 + d.length) (strLit "k")
      [strLit "ab"] (strLit "abc") [strLit "abz"]
      (by decide) (by decide) (by decide)).1⟩

/-! ### Claims C6, C7: the reconciliation pipeline -/

theorem mem_of_mem_uniqueFirstAux :
    ∀ (l seen : List PyStr) (x : PyStr), x ∈ uniqueFirstAux seen l → x ∈ l := by
  intro l
  induction l with
  | nil => intro seen x h; exact absurd h (List.not_mem_nil x)
  | cons k ks ih =>
      intro seen x h
      simp only [uniqueFirstAux] at h
      split at h
      · exact List.mem_cons_of_mem k (ih _ x h)
      · rcases List.mem_cons.1 h with rfl | hm
        · exact List.mem_cons_self x ks
        · exact List.mem_cons_of_mem k (ih _ x hm)

/-- If every key is empty or unmatched, the mapping dict comes out empty
and the unmatched list collects exactly the non-empty keys in order. -/
theorem buildMapping_all_unmatched (score : PyStr → PyStr → Nat) (canon : List PyStr) :
    ∀ ks : List PyStr,
      (∀ k ∈ ks, k = [] ∨ (matchOne score k canon).1 = none) →
      buildMapping score canon ks = ([], ks.filter (fun k => !k.isEmpty)) := by
  intro ks
  induction ks with
  | nil => intro _; rfl
  | cons k ks' ih =>
      intro h
      have hrest := ih (fun e he => h e (List.mem_cons_of_mem k he))
      by_cases hk : k = []
      · subst hk
        simp only [buildMapping, if_pos rfl, hrest, List.filter_cons]
        rfl
      · have hke : k.isEmpty = false := by
          cases k with
          | nil => exact absurd rfl hk
          | cons a as => rfl
        have hm : (matchOne score k canon).1 = none :=
          (h k (List.mem_cons_self k ks')).resolve_left hk
        simp only [buildMapping, if_neg hk, hm, hrest, List.filter_cons, hke,
          Bool.not_false, if_true]

/-- C6 (amended): when every row's key is empty or resolves to no
canonical district, `match_districts` returns `None` (no reconciled
table at all), fires the "No districts could be matched" error, and
reports the distinct non-empty keys as unmatched. -/
theorem c6_all_unmatched_returns_none (score : PyStr → PyStr → Nat)
    (header : List String) (rows : List (List PyStr)) (col : String)
    (canon : List PyStr) (hcol : col ∈ header)
    (h : ∀ r ∈ rows, rowKey (header.indexOf col) r = [] ∨
      (matchOne score (rowKey (header.indexOf col) r) canon).1 = none) :
    (match_districts score header rows col canon).result = none ∧
    (match_districts score header rows col canon).noMatchesError = true ∧
    (match_districts score header rows col canon).unmatched =
      (uniqueFirst (rows.map (rowKey (header.indexOf col)))).filter (fun k => !k.isEmpty) := by
  have hkeys : ∀ k ∈ uniqueFirst (rows.map (rowKey (header.indexOf col))),
      k = [] ∨ (matchOne score k canon).1 = none := by
    intro k hk
    obtain ⟨r, hr, rfl⟩ := List.mem_map.1 (mem_of_mem_uniqueFirstAux _ _ _ hk)
    exact h r hr
  have hbm := buildMapping_all_unmatched score canon _ hkeys
  have hsurv : rows.filter (fun r =>
      (lookupA ([] : List (PyStr × PyStr))
        (rowKey (header.indexOf col) r)).isSome) = [] :=
    List.filter_eq_nil_iff.2 (fun r _ => by simp [lookupA])
  simp only [match_districts, if_pos hcol, hbm, hsurv, List.isEmpty_nil, if_true]
  exact ⟨trivial, trivial, trivial⟩

/-- The constantly-zero similarity function (used for concrete runs whose
keys should only exact-match). -/
def score0 : PyStr → PyStr → Nat := fun _ _ => 0

/-- C6 (counterexample): on a table whose single row (`"Atlantis"`)
matches nothing, the source returns `None` — not an empty reconciled
table — while still reporting the unmatched name. -/
theorem c6_counterexample :
    (match_districts score0 ["district"] [[strLit "Atlantis"]] "district"
      [strLit "Hyderabad"]).result = none ∧
    (match_districts score0 ["district"] [[strLit "Atlantis"]] "district"
      [strLit "Hyderabad"]).unmatched = [strLit "Atlantis"] :=
  ⟨by decide, by decide⟩

/-- C6 witness: the amended theorem applies at the concrete all-unmatched
table. -/
theorem c6_witness :
    ("district" ∈ ["district"]) ∧
    (match_districts score0 ["district"] [[strLit "Atlantis"]] "district"
      [strLit "Hyderabad"]).result = none ∧
    (match_districts score0 ["district"] [[strLit "Atlantis"]] "district"
      [strLit "Hyderabad"]).noMatchesError = true :=
  ⟨by decide,
    (c6_all_unmatched_returns_none score0 ["district"] [[strLit "Atlantis"]] "district"
      [strLit "Hyderabad"] (by decide) (by decide)).1,
    (c6_all_unmatched_returns_none score0 ["district"] [[strLit "Atlantis"]] "district"
      [strLit "Hyderabad"] (by decide) (by decide)).2.1⟩

/-- C7: when reconciliation succeeds, the output is exactly the surviving
rows (those whose key is in the mapping) in their original relative order
— a filter followed by a per-row rewrite — so duplicates survive and
order is preserved (the output is a sublist of the rewritten originals);
the rewrite touches only the district column: every other column index is
unchanged, and the district column holds the mapped canonical name. -/
theorem c7_row_preservation (score : PyStr → PyStr → Nat) (header : List String)
    (rows : List (List PyStr)) (col : String) (canon : List PyStr)
    (out : List (List PyStr))
    (h : (match_districts score header rows col canon).result = some out) :
    col ∈ header ∧
    out = (rows.filter (fun r =>
        (lookupA (buildMapping score canon
          (uniqueFirst (rows.map (rowKey (header.indexOf col))))).1
          (rowKey (header.indexOf col) r)).isSome)).map
      (fun r => r.set (header.indexOf col)
        ((lookupA (buildMapping score canon
          (uniqueFirst (rows.map (rowKey (header.indexOf col))))).1
          (rowKey (header.indexOf col) r)).getD [])) ∧
    (∀ (r : List PyStr) (v : PyStr) (j : Nat), j ≠ header.indexOf col →
      (r.set (header.indexOf col) v)[j]? = r[j]?) ∧
    (∀ r : List PyStr, header.indexOf col < r.length →
      ∀ v : PyStr, lookupA (buildMapping score canon
          (uniqueFirst (rows.map (rowKey (header.indexOf col))))).1
          (rowKey (header.indexOf col) r) = some v →
      (r.set (header.indexOf col)
        ((lookupA (buildMapping score canon
          (uniqueFirst (rows.map (rowKey (header.indexOf col))))).1
          (rowKey (header.indexOf col) r)).getD []))[header.indexOf col]? = some v) ∧
    List.Sublist out (rows.map (fun r => r.set (header.indexOf col)
      ((lookupA (buildMapping score canon
        (uniqueFirst (rows.map (rowKey (header.indexOf col))))).1
        (rowKey (header.indexOf col) r)).getD []))) := by
  by_cases hcol : col ∈ header
  · have hout : out = (rows.filter (fun r =>
        (lookupA (buildMapping score canon
          (uniqueFirst (rows.map (rowKey (header.indexOf col))))).1
          (rowKey (header.indexOf col) r)).isSome)).map
        (fun r => r.set (header.indexOf col)
          ((lookupA (buildMapping score canon
            (uniqueFirst (rows.map (rowKey (header.indexOf col))))).1
            (rowKey (header.indexOf col) r)).getD [])) := by
      simp only [match_districts, if_pos hcol] at h
      split at h
      · exact absurd h (by simp)
      · exact (Option.some_inj.1 h).symm
    refine ⟨hcol, hout, ?_, ?_, ?_⟩
    · intro r v j hj
      exact List.getElem?_set_ne (fun he => hj he.symm)
    · intro r hlt v hv
      rw [hv, Option.getD_some]
      exact List.getElem?_set_eq_of_lt _ hlt
    · rw [hout]
      exact List.Sublist.map _ (List.filter_sublist rows)
  · exfalso
    simp only [match_districts, if_neg hcol] at h
    exact absurd h (by simp)

/-- C7 witness: a concrete successful run — the `"Hyderabad District"` row
survives rewritten, the `"Atlantis"` row is dropped — and the theorem
applies to it. -/
theorem c7_witness :
    ((match_districts score0 ["district", "value"]
        [[strLit "Hyderabad District", strLit "10"], [strLit "Atlantis", strLit "20"]]
        "district" [strLit "Hyderabad"]).result =
      some [[strLit "Hyderabad", strLit "10"]]) ∧
    (([strLit "A", strLit "B"].set (["district", "value"].indexOf "district")
        (strLit "C"))[1]? = [strLit "A", strLit "B"][1]?) :=
  ⟨by decide,
    (c7_row_preservation score0 ["district", "value"]
      [[strLit "Hyderabad District", strLit "10"], [strLit "Atlantis", strLit "20"]]
      "district" [strLit "Hyderabad"] [[strLit "Hyderabad", strLit "10"]]
      (by decide)).2.2.1 [strLit "A", strLit "B"] (strLit "C") 1 (by decide)⟩

/-! ### Claims C8, C10: the containment lookup -/

theorem get_district_none_of_all {G P : Type} (containsFn : G → P → Bool)
    (features : List (PyStr × G)) (p : P)
    (h : ∀ f ∈ features, containsFn f.2 p = false) :
    get_district_from_coordinates containsFn features p = none := by
  induction features with
  | nil => rfl
  | cons f fs ih =>
      rw [get_district_from_coordinates,
        if_neg (by simp [h f (List.mem_cons_self f fs)])]
      exact ih (fun e he => h e (List.mem_cons_of_mem f he))

/-- C8: the lookup walks the features in loaded (canonical) order.  If no
feature's polygon contains the point the result is `none` (a valid value
of the return type, not an error); otherwise it is the name of the first
feature whose polygon contains the point — earlier features all reject. -/
theorem c8_first_containing_in_order {G P : Type} (containsFn : G → P → Bool)
    (features : List (PyStr × G)) (p : P) :
    ((∀ f ∈ features, containsFn f.2 p = false) →
      get_district_from_coordinates containsFn features p = none) ∧
    (∀ (l1 : List (PyStr × G)) (nm : PyStr) (g : G) (l2 : List (PyStr × G)),
      features = l1 ++ (nm, g) :: l2 →
      (∀ f ∈ l1, containsFn f.2 p = false) → containsFn g p = true →
      get_district_from_coordinates containsFn features p = some nm) := by
  constructor
  · exact get_district_none_of_all containsFn features p
  · intro l1 nm g l2 heq h1 hg
    subst heq
    induction l1 with
    | nil => rw [List.nil_append, get_district_from_coordinates, if_pos hg]
    | cons f0 l1' ih =>
        rw [List.cons_append, get_district_from_coordinates,
          if_neg (by simp [h1 f0 (List.mem_cons_self f0 l1')])]
        exact ih (fun e he => h1 e (List.mem_cons_of_mem f0 he))

/-- C8 witness: with containment given by the feature's own flag, the
lookup returns the first containing feature's name, and `none` when no
feature contains the point. -/
theorem c8_witness :
    (get_district_from_coordinates (fun (g : Bool) (_ : Unit) => g)
      [(strLit "A", false), (strLit "B", true)] () = some (strLit "B")) ∧
    (get_district_from_coordinates (fun (g : Bool) (_ : Unit) => g)
      [(strLit "A", false)] () = none) :=
  ⟨(c8_first_containing_in_order (fun (g : Bool) (_ : Unit) => g)
      [(strLit "A", false), (strLit "B", true)] ()).2
      [(strLit "A", false)] (strLit "B") true [] rfl (by decide) rfl,
    (c8_first_containing_in_order (fun (g : Bool) (_ : Unit) => g)
      [(strLit "A", false)] ()).1 (by decide)⟩

theorem onBoundary_not_contained {R : Type} [LinearOrderedCommRing R]
    (ring : List (R × R)) (p : R × R) (h : onBoundary ring p = true) :
    shapelyContains ring p = false := by
  rw [shapelyContains, if_pos h]

/-- C10: the modelled shapely containment is strict — a boundary point is
never contained — so at a point that lies on every candidate's boundary
(or outside it), e.g. on an edge shared by two adjacent districts, the
lookup returns `none` rather than either district's name. -/
theorem c10_boundary_point_yields_none {R : Type} [LinearOrderedCommRing R]
    (features : List (PyStr × List (R × R))) (p : R × R)
    (h : ∀ f ∈ features, onBoundary f.2 p = true ∨ shapelyContains f.2 p = false) :
    (∀ f ∈ features, onBoundary f.2 p = true → shapelyContains f.2 p = false) ∧
    get_district_from_coordinates (fun g q => shapelyContains g q) features p = none := by
  constructor
  · exact fun f _ hb => onBoundary_not_contained f.2 p hb
  · apply get_district_none_of_all
    intro f hf
    rcases h f hf with hb | hc
    · exact onBoundary_not_contained f.2 p hb
    · exact hc

/-- C10 witness: two unit-scaled squares sharing the edge `x = 2`; the
point `(2, 1)` lies on that shared boundary, is contained in neither
square, and the lookup returns `none`. -/
theorem c10_witness :
    (∀ f ∈ [(strLit "A", [((0 : ℤ), (0 : ℤ)), (2, 0), (2, 2), (0, 2), (0, 0)]),
            (strLit "B", [((2 : ℤ), (0 : ℤ)), (4, 0), (4, 2), (2, 2), (2, 0)])],
      onBoundary f.2 ((2 : ℤ), 1) = true ∨ shapelyContains f.2 ((2 : ℤ), 1) = false) ∧
    get_district_from_coordinates (fun g q => shapelyContains g q)
      [(strLit "A", [((0 : ℤ), (0 : ℤ)), (2, 0), (2, 2), (0, 2), (0, 0)]),
       (strLit "B", [((2 : ℤ), (0 : ℤ)), (4, 0), (4, 2), (2, 2), (2, 0)])]
      ((2 : ℤ), 1) = none :=
  ⟨by decide,
    (c10_boundary_point_yields_none
      [(strLit "A", [((0 : ℤ), (0 : ℤ)), (2, 0), (2, 2), (0, 2), (0, 0)]),
       (strLit "B", [((2 : ℤ), (0 : ℤ)), (4, 0), (4, 2), (2, 2), (2, 0)])]
      ((2 : ℤ), 1) (by decide)).2⟩

/-! ### Claim C9: distance symmetry and self-distance -/

theorem haversine_symm (lat1 lon1 lat2 lon2 : ℝ) :
    haversine_distance lat1 lon1 lat2 lon2 = haversine_distance lat2 lon2 lat1 lon1 := by
  simp only [haversine_distance]
  have h1 : (radians lat1 - radians lat2) / 2 = -((radians lat2 - radians lat1) / 2) := by
    ring
  have h2 : (radians lon1 - radians lon2) / 2 = -((radians lon2 - radians lon1) / 2) := by
    ring
  rw [h1, h2, Real.sin_neg, Real.sin_neg, neg_sq, neg_sq,
    mul_comm (Real.cos (radians lat2)) (Real.cos (radians lat1))]

theorem haversine_self (lat lon : ℝ) : haversine_distance lat lon lat lon = 0 := by
  simp only [haversine_distance, sub_self, zero_div, Real.sin_zero]
  norm_num

/-- C9: district-to-district distance is symmetric (the haversine form is
invariant under swapping the centroids), and the distance from a known
district to itself is 0. -/
theorem c9_distance_symm_self {G : Type} (centroidOf : G → ℝ × ℝ)
    (features : List (PyStr × G)) :
    (∀ a b, calculate_distance_between_districts centroidOf features a b =
      calculate_distance_between_districts centroidOf features b a) ∧
    (∀ a c, get_district_centroid centroidOf features a = some c →
      calculate_distance_between_districts centroidOf features a a = some 0) := by
  constructor
  · intro a b
    unfold calculate_distance_between_districts
    cases get_district_centroid centroidOf features a with
    | none => cases get_district_centroid centroidOf features b <;> rfl
    | some c1 =>
        cases get_district_centroid centroidOf features b with
        | none => rfl
        | some c2 => simp only [haversine_symm c1.1 c1.2 c2.1 c2.2]
  · intro a c hc
    unfold calculate_distance_between_districts
    rw [hc]
    simp only [haversine_self]

/-- C9 witness: a one-feature map with centroid `(0, 0)`; the centroid
lookup succeeds and the self-distance is 0. -/
theorem c9_witness :
    (get_district_centroid (fun _ : Unit => ((0 : ℝ), 0)) [(strLit "A", ())]
      (strLit "A") = some (0, 0)) ∧
    calculate_distance_between_districts (fun _ : Unit => ((0 : ℝ), 0))
      [(strLit "A", ())] (strLit "A") (strLit "A") = some 0 :=
  ⟨by simp [get_district_centroid],
    (c9_distance_symm_self (fun _ : Unit => ((0 : ℝ), 0)) [(strLit "A", ())]).2
      (strLit "A") (0, 0) (by simp [get_district_centroid])⟩

example : normalize_district_name (strLit " Hyderabad District ") = strLit "Hyderabad" := by decide

example : normalize_district_name (strLit "DISTRICT X") = strLit "District X" := by decide

example : normalize_district_name (strLit "District X") = strLit "X" := by decide

example : normalize_district_name (strLit "Greater District City") = strLit "Greater City" := by
  decide

end TelanganaViz
